import Mathlib

/-!
Verification of the flood-detection notebook
(`Flooded Areas Detection Model/Model.ipynb`).

Shallow embedding conventions:

* A PyTorch tensor of rank 4 (shape `(N, C, H, W)`) is modelled as a
  structure carrying its four extents and a total data function; entries
  are idealized real numbers (the notebook computes in float32; we use
  exact real arithmetic, so `1e-6` is the rational `1/1000000`).
* `tensor.int()` truncates toward zero; `&` / `|` on int tensors are the
  bitwise operations `Int.land` / `Int.lor`, exactly as in PyTorch.
* Means of empty tensors are `sum / 0 = 0` in Lean (PyTorch yields NaN);
  theorems therefore carry positivity hypotheses on the extents where the
  value matters.
-/

noncomputable section

/-- A rank-4 tensor `(N, C, H, W)`: the shape PyTorch gives every batch in
the notebook (`images`, `masks`, `outputs` are all `(N, C, H, W)`). -/
structure Tensor4 where
  numN : ℕ
  numC : ℕ
  numH : ℕ
  numW : ℕ
  data : ℕ → ℕ → ℕ → ℕ → ℝ

/-- A rank-3 tensor `(N, H, W)`. -/
structure Tensor3 where
  numN : ℕ
  numH : ℕ
  numW : ℕ
  data : ℕ → ℕ → ℕ → ℝ

/-- `torch.sigmoid`. -/
def sigmoid (x : ℝ) : ℝ := 1 / (1 + Real.exp (-x))

/-- The binarization in `calculate_iou`:
`preds = torch.sigmoid(preds); preds = (preds > 0.5).float(); preds = preds.int()`. -/
def binInt (x : ℝ) : ℤ := if 1 / 2 < sigmoid x then 1 else 0

/-- `tensor.int()` on a float tensor: truncation toward zero. -/
def truncInt (x : ℝ) : ℤ := if 0 ≤ x then ⌊x⌋ else ⌈x⌉

/-- `smooth = 1e-6` in `calculate_iou`. -/
def smooth : ℝ := 1 / 1000000

/-- `calculate_iou(preds, labels)` as executed in the notebook, where both
arguments are rank-4 `(N, C, H, W)` tensors (the test loop passes
`outputs` and `masks`, both `(N, 1, 256, 256)`).  `.sum((1, 2))` on a
rank-4 tensor sums dims 1 (channel) and 2 (height) and leaves a
`(N, W)` tensor, and `.mean()` then averages over batch and width. -/
def calculate_iou4 (preds labels : Tensor4) : ℝ :=
  let P : ℕ → ℕ → ℕ → ℕ → ℤ := fun n c h w => binInt (preds.data n c h w)
  let L : ℕ → ℕ → ℕ → ℕ → ℤ := fun n c h w => truncInt (labels.data n c h w)
  let inter : ℕ → ℕ → ℤ := fun n w =>
    ∑ c ∈ Finset.range preds.numC, ∑ h ∈ Finset.range preds.numH,
      Int.land (P n c h w) (L n c h w)
  let uni : ℕ → ℕ → ℤ := fun n w =>
    ∑ c ∈ Finset.range preds.numC, ∑ h ∈ Finset.range preds.numH,
      Int.lor (P n c h w) (L n c h w)
  (∑ n ∈ Finset.range preds.numN, ∑ w ∈ Finset.range preds.numW,
      ((inter n w : ℝ) + smooth) / ((uni n w : ℝ) + smooth)) /
    (preds.numN * preds.numW)

/-- `calculate_iou(preds, labels)` applied to rank-3 `(N, H, W)` tensors:
here `.sum((1, 2))` sums height and width, leaving one value per sample,
and `.mean()` averages over the batch. -/
def calculate_iou3 (preds labels : Tensor3) : ℝ :=
  let P : ℕ → ℕ → ℕ → ℤ := fun n h w => binInt (preds.data n h w)
  let L : ℕ → ℕ → ℕ → ℤ := fun n h w => truncInt (labels.data n h w)
  let inter : ℕ → ℤ := fun n =>
    ∑ h ∈ Finset.range preds.numH, ∑ w ∈ Finset.range preds.numW,
      Int.land (P n h w) (L n h w)
  let uni : ℕ → ℤ := fun n =>
    ∑ h ∈ Finset.range preds.numH, ∑ w ∈ Finset.range preds.numW,
      Int.lor (P n h w) (L n h w)
  (∑ n ∈ Finset.range preds.numN,
      ((inter n : ℝ) + smooth) / ((uni n : ℝ) + smooth)) / preds.numN

/-- The IoU formula as the specification words it for rank-4 tensors:
binarize, cast labels to int, take the per-sample count of pixels
positive in both / in either (over channel, height and width), smooth,
and average over the batch dimension only. -/
def claimedIoU4 (preds labels : Tensor4) : ℝ :=
  let P : ℕ → ℕ → ℕ → ℕ → ℤ := fun n c h w => binInt (preds.data n c h w)
  let L : ℕ → ℕ → ℕ → ℕ → ℤ := fun n c h w => truncInt (labels.data n c h w)
  let interCount : ℕ → ℕ := fun n =>
    ∑ c ∈ Finset.range preds.numC, ∑ h ∈ Finset.range preds.numH,
      ∑ w ∈ Finset.range preds.numW,
        if 0 < P n c h w ∧ 0 < L n c h w then 1 else 0
  let uniCount : ℕ → ℕ := fun n =>
    ∑ c ∈ Finset.range preds.numC, ∑ h ∈ Finset.range preds.numH,
      ∑ w ∈ Finset.range preds.numW,
        if 0 < P n c h w ∨ 0 < L n c h w then 1 else 0
  (∑ n ∈ Finset.range preds.numN,
      ((interCount n : ℝ) + smooth) / ((uniCount n : ℝ) + smooth)) /
    preds.numN

/-- The IoU formula as the specification words it for rank-3 tensors:
per-sample counts of pixels positive in both / in either, smoothed ratio,
averaged over the batch dimension. -/
def claimedIoU3 (preds labels : Tensor3) : ℝ :=
  let P : ℕ → ℕ → ℕ → ℤ := fun n h w => binInt (preds.data n h w)
  let L : ℕ → ℕ → ℕ → ℤ := fun n h w => truncInt (labels.data n h w)
  let interCount : ℕ → ℕ := fun n =>
    ∑ h ∈ Finset.range preds.numH, ∑ w ∈ Finset.range preds.numW,
      if 0 < P n h w ∧ 0 < L n h w then 1 else 0
  let uniCount : ℕ → ℕ := fun n =>
    ∑ h ∈ Finset.range preds.numH, ∑ w ∈ Finset.range preds.numW,
      if 0 < P n h w ∨ 0 < L n h w then 1 else 0
  (∑ n ∈ Finset.range preds.numN,
      ((interCount n : ℝ) + smooth) / ((uniCount n : ℝ) + smooth)) /
    preds.numN

/-- `sigmoid x > 0.5` holds exactly when the logit is positive. -/
theorem binInt_eq (x : ℝ) : binInt x = if 0 < x then 1 else 0 := by
  have hE : 0 < Real.exp (-x) := Real.exp_pos _
  have : 1 / 2 < sigmoid x ↔ 0 < x := by
    unfold sigmoid
    rw [div_lt_div_iff₀ (by norm_num) (by linarith)]
    constructor
    · intro h
      have hlt : Real.exp (-x) < 1 := by linarith
      have := (Real.exp_lt_one_iff).mp hlt
      linarith
    · intro h
      have hlt : Real.exp (-x) < 1 := Real.exp_lt_one_iff.mpr (by linarith)
      linarith
  unfold binInt
  rw [if_congr this rfl rfl]

theorem truncInt_zero : truncInt 0 = 0 := by norm_num [truncInt]

theorem truncInt_one : truncInt 1 = 1 := by norm_num [truncInt]

/-- On values that are `0` or `1`, bitwise AND with a binarized prediction
is the indicator of both being positive. -/
theorem land_binInt (x : ℝ) (b : ℤ) (hb : b = 0 ∨ b = 1) :
    Int.land (binInt x) b = if 0 < binInt x ∧ 0 < b then 1 else 0 := by
  rw [binInt_eq]
  rcases hb with rfl | rfl <;> by_cases hx : 0 < x <;>
    simp only [if_pos, if_neg, hx, if_true, if_false, ite_true, ite_false] <;> decide

/-- On values that are `0` or `1`, bitwise OR with a binarized prediction
is the indicator of either being positive. -/
theorem lor_binInt (x : ℝ) (b : ℤ) (hb : b = 0 ∨ b = 1) :
    Int.lor (binInt x) b = if 0 < binInt x ∨ 0 < b then 1 else 0 := by
  rw [binInt_eq]
  rcases hb with rfl | rfl <;> by_cases hx : 0 < x <;>
    simp only [if_pos, if_neg, hx, if_true, if_false, ite_true, ite_false] <;> decide

/-- C1, counterexample.  On the rank-4 `(N, 1, H, W)` tensors the test loop
actually passes, `.sum((1, 2))` sums channels and height, not the whole
image, so `calculate_iou` is not the batch mean of per-sample smoothed
IoU ratios: a single-sample batch with a `1 × 2` image already
separates the two values. -/
theorem C1_counterexample :
    calculate_iou4 ⟨1, 1, 1, 2, fun _ _ _ w => if w = 0 then 1 else -1⟩
        ⟨1, 1, 1, 2, fun _ _ _ _ => 1⟩ ≠
      claimedIoU4 ⟨1, 1, 1, 2, fun _ _ _ w => if w = 0 then 1 else -1⟩
        ⟨1, 1, 1, 2, fun _ _ _ _ => 1⟩ := by
  simp only [calculate_iou4, claimedIoU4, smooth, binInt_eq, truncInt_one,
    Finset.sum_range_succ, Finset.sum_range_zero]
  norm_num [show Int.land 1 1 = 1 from rfl, show Int.land 0 1 = 0 from rfl,
    show Int.lor 1 1 = 1 from rfl, show Int.lor 0 1 = 1 from rfl]

/-- C1, amended.  For rank-3 `(N, H, W)` tensors whose labels cast to `0`
or `1`, `calculate_iou` is exactly the spec's formula: the batch mean of
the smoothed ratio of the per-sample count of pixels positive in both
binarized prediction and label to the count positive in either. -/
theorem C1_iou_amended (p l : Tensor3)
    (h01 : ∀ n h w, n < p.numN → h < p.numH → w < p.numW →
      truncInt (l.data n h w) = 0 ∨ truncInt (l.data n h w) = 1) :
    calculate_iou3 p l = claimedIoU3 p l := by
  simp only [calculate_iou3, claimedIoU3]
  congr 1
  refine Finset.sum_congr rfl fun n hn => ?_
  have hn' := Finset.mem_range.mp hn
  have hinter : (∑ h ∈ Finset.range p.numH, ∑ w ∈ Finset.range p.numW,
      Int.land (binInt (p.data n h w)) (truncInt (l.data n h w))) =
      ((∑ h ∈ Finset.range p.numH, ∑ w ∈ Finset.range p.numW,
        if 0 < binInt (p.data n h w) ∧ 0 < truncInt (l.data n h w) then 1
        else 0 : ℕ) : ℤ) := by
    push_cast
    refine Finset.sum_congr rfl fun h hh => Finset.sum_congr rfl fun w hw => ?_
    rw [land_binInt _ _ (h01 n h w hn' (Finset.mem_range.mp hh)
      (Finset.mem_range.mp hw))]
  have huni : (∑ h ∈ Finset.range p.numH, ∑ w ∈ Finset.range p.numW,
      Int.lor (binInt (p.data n h w)) (truncInt (l.data n h w))) =
      ((∑ h ∈ Finset.range p.numH, ∑ w ∈ Finset.range p.numW,
        if 0 < binInt (p.data n h w) ∨ 0 < truncInt (l.data n h w) then 1
        else 0 : ℕ) : ℤ) := by
    push_cast
    refine Finset.sum_congr rfl fun h hh => Finset.sum_congr rfl fun w hw => ?_
    rw [lor_binInt _ _ (h01 n h w hn' (Finset.mem_range.mp hh)
      (Finset.mem_range.mp hw))]
  rw [hinter, huni]
  push_cast
  ring

/-- Witness for `C1_iou_amended` at a concrete `(1, 1, 1)` input. -/
theorem C1_iou_amended_witness :
    calculate_iou3 ⟨1, 1, 1, fun _ _ _ => 1⟩ ⟨1, 1, 1, fun _ _ _ => 1⟩ =
      claimedIoU3 ⟨1, 1, 1, fun _ _ _ => 1⟩ ⟨1, 1, 1, fun _ _ _ => 1⟩ :=
  C1_iou_amended _ _ (fun _ _ _ _ _ _ => Or.inr truncInt_one)

theorem land_binInt_nonneg (x : ℝ) (b : ℤ) (hb : b = 0 ∨ b = 1) :
    0 ≤ Int.land (binInt x) b := by
  rw [land_binInt _ _ hb]; split_ifs <;> decide

theorem land_le_lor_binInt (x : ℝ) (b : ℤ) (hb : b = 0 ∨ b = 1) :
    Int.land (binInt x) b ≤ Int.lor (binInt x) b := by
  rw [land_binInt _ _ hb, lor_binInt _ _ hb]
  split_ifs with h1 h2
  · exact le_refl 1
  · exact absurd (Or.inl h1.1) h2
  · decide
  · exact le_refl 0

theorem land_eq_lor_binInt (x : ℝ) (b : ℤ) (hb : b = 0 ∨ b = 1) :
    Int.land (binInt x) b = Int.lor (binInt x) b ↔ binInt x = b := by
  rw [binInt_eq]
  rcases hb with rfl | rfl <;> by_cases hx : 0 < x <;>
    simp only [hx, if_true, if_false, ite_true, ite_false] <;> decide

/-- One smoothed ratio `(I + 1e-6) / (U + 1e-6)` with `0 ≤ I ≤ U` lies in
`(0, 1]` and equals `1` exactly when `I = U`. -/
theorem cell_facts (I U : ℤ) (h0 : 0 ≤ I) (hIU : I ≤ U) :
    0 < ((I : ℝ) + smooth) / ((U : ℝ) + smooth) ∧
      ((I : ℝ) + smooth) / ((U : ℝ) + smooth) ≤ 1 ∧
      (((I : ℝ) + smooth) / ((U : ℝ) + smooth) = 1 ↔ I = U) := by
  have hs : (0 : ℝ) < smooth := by norm_num [smooth]
  have hI0 : (0 : ℝ) ≤ (I : ℝ) := by exact_mod_cast h0
  have hU0 : (0 : ℝ) ≤ (U : ℝ) := by exact_mod_cast le_trans h0 hIU
  have hIU' : (I : ℝ) ≤ (U : ℝ) := by exact_mod_cast hIU
  have hIp : (0 : ℝ) < (I : ℝ) + smooth := by linarith
  have hUp : (0 : ℝ) < (U : ℝ) + smooth := by linarith
  refine ⟨div_pos hIp hUp, ?_, ?_⟩
  · rw [div_le_one hUp]; linarith
  · rw [div_eq_one_iff_eq hUp.ne']
    constructor
    · intro h
      have : (I : ℝ) = (U : ℝ) := by linarith
      exact_mod_cast this
    · intro h; rw [h]

/-- The mean of an `N × W` grid of values, each in `(0, 1]`, lies in
`(0, 1]`, and equals `1` exactly when every value is `1`. -/
theorem mean_cells (N W : ℕ) (f : ℕ → ℕ → ℝ) (hN : 0 < N) (hW : 0 < W)
    (hpos : ∀ n w, n < N → w < W → 0 < f n w)
    (hle : ∀ n w, n < N → w < W → f n w ≤ 1) :
    0 < (∑ n ∈ Finset.range N, ∑ w ∈ Finset.range W, f n w) / ((N : ℝ) * W) ∧
      (∑ n ∈ Finset.range N, ∑ w ∈ Finset.range W, f n w) / ((N : ℝ) * W) ≤ 1 ∧
      ((∑ n ∈ Finset.range N, ∑ w ∈ Finset.range W, f n w) / ((N : ℝ) * W) = 1 ↔
        ∀ n w, n < N → w < W → f n w = 1) := by
  have hNW : (0 : ℝ) < (N : ℝ) * W := by
    have := Nat.mul_pos hN hW
    exact_mod_cast this
  have hsum_le : ∀ n ∈ Finset.range N,
      (∑ w ∈ Finset.range W, f n w) ≤ ∑ w ∈ Finset.range W, (1 : ℝ) := by
    intro n hn
    exact Finset.sum_le_sum fun w hw =>
      hle n w (Finset.mem_range.mp hn) (Finset.mem_range.mp hw)
  have hconst : (∑ _n ∈ Finset.range N, ∑ _w ∈ Finset.range W, (1 : ℝ)) =
      (N : ℝ) * W := by
    simp [Finset.sum_const, Finset.card_range, mul_comm]
  refine ⟨?_, ?_, ?_⟩
  · refine div_pos ?_ hNW
    refine Finset.sum_pos (fun n hn => ?_) (Finset.nonempty_range_iff.mpr hN.ne')
    exact Finset.sum_pos
      (fun w hw => hpos n w (Finset.mem_range.mp hn) (Finset.mem_range.mp hw))
      (Finset.nonempty_range_iff.mpr hW.ne')
  · rw [div_le_one hNW, ← hconst]
    exact Finset.sum_le_sum hsum_le
  · rw [div_eq_one_iff_eq hNW.ne', ← hconst,
      Finset.sum_eq_sum_iff_of_le hsum_le]
    constructor
    · intro hall n w hn hw
      have h1 := hall n (Finset.mem_range.mpr hn)
      rw [Finset.sum_eq_sum_iff_of_le (fun w hw' =>
        hle n w (Finset.mem_range.mp (Finset.mem_range.mpr hn))
          (Finset.mem_range.mp hw'))] at h1
      exact h1 w (Finset.mem_range.mpr hw)
    · intro hall n hn
      exact Finset.sum_congr rfl fun w hw =>
        hall n w (Finset.mem_range.mp hn) (Finset.mem_range.mp hw)

/-- Mean over a grid of smoothed ratios with `0 ≤ I ≤ U`: in `(0, 1]`, and
equal to `1` exactly when `I = U` at every grid point. -/
theorem iou_grid_facts (N W : ℕ) (I U : ℕ → ℕ → ℤ) (hN : 0 < N) (hW : 0 < W)
    (h0 : ∀ n w, n < N → w < W → 0 ≤ I n w)
    (hIU : ∀ n w, n < N → w < W → I n w ≤ U n w) :
    0 < (∑ n ∈ Finset.range N, ∑ w ∈ Finset.range W,
        ((I n w : ℝ) + smooth) / ((U n w : ℝ) + smooth)) / ((N : ℝ) * W) ∧
      (∑ n ∈ Finset.range N, ∑ w ∈ Finset.range W,
        ((I n w : ℝ) + smooth) / ((U n w : ℝ) + smooth)) / ((N : ℝ) * W) ≤ 1 ∧
      ((∑ n ∈ Finset.range N, ∑ w ∈ Finset.range W,
        ((I n w : ℝ) + smooth) / ((U n w : ℝ) + smooth)) / ((N : ℝ) * W) = 1 ↔
        ∀ n w, n < N → w < W → I n w = U n w) := by
  have hcell := fun n w (hn : n < N) (hw : w < W) =>
    cell_facts (I n w) (U n w) (h0 n w hn hw) (hIU n w hn hw)
  have key := mean_cells N W
    (fun n w => ((I n w : ℝ) + smooth) / ((U n w : ℝ) + smooth)) hN hW
    (fun n w hn hw => (hcell n w hn hw).1)
    (fun n w hn hw => (hcell n w hn hw).2.1)
  refine ⟨key.1, key.2.1, ?_⟩
  rw [key.2.2]
  constructor
  · exact fun hall n w hn hw => ((hcell n w hn hw).2.2).mp (hall n w hn hw)
  · exact fun hall n w hn hw => ((hcell n w hn hw).2.2).mpr (hall n w hn hw)

/-- C9: on rank-4 tensors with `0/1`-valued labels, `calculate_iou` lies in
`(0, 1]` and equals `1` exactly when the binarized predictions agree with
the int-cast labels at every pixel of every sample. -/
theorem C9_iou_in_unit (p l : Tensor4) (hN : 0 < p.numN) (hW : 0 < p.numW)
    (h01 : ∀ n c h w, n < p.numN → c < p.numC → h < p.numH → w < p.numW →
      truncInt (l.data n c h w) = 0 ∨ truncInt (l.data n c h w) = 1) :
    0 < calculate_iou4 p l ∧ calculate_iou4 p l ≤ 1 ∧
      (calculate_iou4 p l = 1 ↔
        ∀ n c h w, n < p.numN → c < p.numC → h < p.numH → w < p.numW →
          binInt (p.data n c h w) = truncInt (l.data n c h w)) := by
  have hI0 : ∀ n w, n < p.numN → w < p.numW →
      0 ≤ ∑ c ∈ Finset.range p.numC, ∑ h ∈ Finset.range p.numH,
        Int.land (binInt (p.data n c h w)) (truncInt (l.data n c h w)) := by
    intro n w hn hw
    exact Finset.sum_nonneg fun c hc => Finset.sum_nonneg fun h hh =>
      land_binInt_nonneg _ _
        (h01 n c h w hn (Finset.mem_range.mp hc) (Finset.mem_range.mp hh) hw)
  have hIU : ∀ n w, n < p.numN → w < p.numW →
      (∑ c ∈ Finset.range p.numC, ∑ h ∈ Finset.range p.numH,
        Int.land (binInt (p.data n c h w)) (truncInt (l.data n c h w))) ≤
      ∑ c ∈ Finset.range p.numC, ∑ h ∈ Finset.range p.numH,
        Int.lor (binInt (p.data n c h w)) (truncInt (l.data n c h w)) := by
    intro n w hn hw
    exact Finset.sum_le_sum fun c hc => Finset.sum_le_sum fun h hh =>
      land_le_lor_binInt _ _
        (h01 n c h w hn (Finset.mem_range.mp hc) (Finset.mem_range.mp hh) hw)
  have key := iou_grid_facts p.numN p.numW _ _ hN hW hI0 hIU
  have hval : calculate_iou4 p l =
      (∑ n ∈ Finset.range p.numN, ∑ w ∈ Finset.range p.numW,
        (((∑ c ∈ Finset.range p.numC, ∑ h ∈ Finset.range p.numH,
          Int.land (binInt (p.data n c h w)) (truncInt (l.data n c h w)) : ℤ) : ℝ)
            + smooth) /
        (((∑ c ∈ Finset.range p.numC, ∑ h ∈ Finset.range p.numH,
          Int.lor (binInt (p.data n c h w)) (truncInt (l.data n c h w)) : ℤ) : ℝ)
            + smooth)) / ((p.numN : ℝ) * p.numW) := by
    simp only [calculate_iou4]
  rw [hval]
  refine ⟨key.1, key.2.1, ?_⟩
  rw [key.2.2]
  constructor
  · intro hall n c h w hn hc hh hw
    have h1 := hall n w hn hw
    rw [Finset.sum_eq_sum_iff_of_le (fun c' hc' => Finset.sum_le_sum
      fun h' hh' => land_le_lor_binInt _ _
        (h01 n c' h' w hn (Finset.mem_range.mp hc')
          (Finset.mem_range.mp hh') hw))] at h1
    have h2 := h1 c (Finset.mem_range.mpr hc)
    rw [Finset.sum_eq_sum_iff_of_le (fun h' hh' => land_le_lor_binInt _ _
      (h01 n c h' w hn hc (Finset.mem_range.mp hh') hw))] at h2
    exact (land_eq_lor_binInt _ _ (h01 n c h w hn hc hh hw)).mp
      (h2 h (Finset.mem_range.mpr hh))
  · intro hall n w hn hw
    exact Finset.sum_congr rfl fun c hc => Finset.sum_congr rfl fun h hh =>
      (land_eq_lor_binInt _ _
        (h01 n c h w hn (Finset.mem_range.mp hc) (Finset.mem_range.mp hh) hw)).mpr
      (hall n c h w hn (Finset.mem_range.mp hc) (Finset.mem_range.mp hh) hw)

/-- Witness for `C9_iou_in_unit`: an all-negative prediction against an
all-zero mask, which scores exactly `1` by the agreement criterion. -/
theorem C9_iou_in_unit_witness :
    (0 < calculate_iou4 ⟨1, 1, 1, 1, fun _ _ _ _ => -1⟩
        ⟨1, 1, 1, 1, fun _ _ _ _ => 0⟩ ∧
      calculate_iou4 ⟨1, 1, 1, 1, fun _ _ _ _ => -1⟩
        ⟨1, 1, 1, 1, fun _ _ _ _ => 0⟩ ≤ 1 ∧
      (calculate_iou4 ⟨1, 1, 1, 1, fun _ _ _ _ => -1⟩
          ⟨1, 1, 1, 1, fun _ _ _ _ => 0⟩ = 1 ↔
        ∀ n c h w, n < 1 → c < 1 → h < 1 → w < 1 →
          binInt (-1) = truncInt 0)) ∧
      calculate_iou4 ⟨1, 1, 1, 1, fun _ _ _ _ => -1⟩
        ⟨1, 1, 1, 1, fun _ _ _ _ => 0⟩ = 1 := by
  have key := C9_iou_in_unit ⟨1, 1, 1, 1, fun _ _ _ _ => -1⟩
    ⟨1, 1, 1, 1, fun _ _ _ _ => 0⟩ (by norm_num) (by norm_num)
    (fun _ _ _ _ _ _ _ _ => Or.inl truncInt_zero)
  refine ⟨key, ?_⟩
  rw [key.2.2]
  intro _ _ _ _ _ _ _ _
  rw [binInt_eq, truncInt_zero]
  norm_num

/-- Mean over all elements of a rank-4 tensor (`tensor.mean()`). -/
def mean4 (T : Tensor4) : ℝ :=
  (∑ n ∈ Finset.range T.numN, ∑ c ∈ Finset.range T.numC,
    ∑ h ∈ Finset.range T.numH, ∑ w ∈ Finset.range T.numW, T.data n c h w) /
  ((T.numN * T.numC * T.numH * T.numW : ℕ) : ℝ)

/-- Elementwise binary cross-entropy with logits:
`nn.BCEWithLogitsLoss` computes `-(y·log σ(x) + (1-y)·log(1-σ(x)))`. -/
def bceWithLogits (x y : ℝ) : ℝ :=
  -(y * Real.log (sigmoid x) + (1 - y) * Real.log (1 - sigmoid x))

/-- `nn.BCEWithLogitsLoss(reduction='none')(inputs, targets)`. -/
def bceTensor (inputs targets : Tensor4) : Tensor4 :=
  ⟨inputs.numN, inputs.numC, inputs.numH, inputs.numW,
   fun n c h w => bceWithLogits (inputs.data n c h w) (targets.data n c h w)⟩

/-- `FocalLoss(alpha=0.25, gamma=2)`: the constructor's default
hyperparameters. -/
structure FocalLoss where
  alpha : ℝ := 1 / 4
  gamma : ℕ := 2

/-- `FocalLoss.forward`: unreduced BCE-with-logits, `pt = exp(-BCE)`,
`F = alpha * (1 - pt)**gamma * BCE`, then `.mean()`. -/
def FocalLoss.forward (fl : FocalLoss) (inputs targets : Tensor4) : ℝ :=
  let BCE_loss := bceTensor inputs targets
  let pt : Tensor4 := ⟨BCE_loss.numN, BCE_loss.numC, BCE_loss.numH, BCE_loss.numW,
    fun n c h w => Real.exp (-(BCE_loss.data n c h w))⟩
  let F_loss : Tensor4 := ⟨BCE_loss.numN, BCE_loss.numC, BCE_loss.numH, BCE_loss.numW,
    fun n c h w =>
      fl.alpha * (1 - pt.data n c h w) ^ fl.gamma * BCE_loss.data n c h w⟩
  mean4 F_loss

/-- `criterion = FocalLoss()`: the loss instance the training loop uses. -/
def criterion : FocalLoss := {}

/-- The focal-loss value as the specification words it: the mean over all
elements of `alpha * (1 - exp(-BCE))^gamma * BCE`, `BCE` being the
elementwise binary cross-entropy with logits. -/
def focalClaimed (a : ℝ) (g : ℕ) (inputs targets : Tensor4) : ℝ :=
  mean4 ⟨inputs.numN, inputs.numC, inputs.numH, inputs.numW,
    fun n c h w =>
      a * (1 - Real.exp
          (-(bceWithLogits (inputs.data n c h w) (targets.data n c h w)))) ^ g *
        bceWithLogits (inputs.data n c h w) (targets.data n c h w)⟩

/-- C2: the training criterion computes exactly the claimed formula, with
the default hyperparameters `alpha = 0.25` and `gamma = 2`. -/
theorem C2_focal_forward (inputs targets : Tensor4) :
    criterion.forward inputs targets = focalClaimed (1 / 4) 2 inputs targets ∧
      criterion.alpha = 1 / 4 ∧ criterion.gamma = 2 :=
  ⟨rfl, rfl, rfl⟩

theorem sigmoid_pos (x : ℝ) : 0 < sigmoid x := by
  unfold sigmoid
  positivity

theorem sigmoid_lt_one (x : ℝ) : sigmoid x < 1 := by
  unfold sigmoid
  rw [div_lt_one (by positivity)]
  have := Real.exp_pos (-x)
  linarith

/-- For targets in `[0, 1]`, binary cross-entropy is nonnegative. -/
theorem bce_nonneg (x y : ℝ) (hy0 : 0 ≤ y) (hy1 : y ≤ 1) :
    0 ≤ bceWithLogits x y := by
  have hs0 := sigmoid_pos x
  have hs1 := sigmoid_lt_one x
  have hls : Real.log (sigmoid x) ≤ 0 := Real.log_nonpos (le_of_lt hs0) (le_of_lt hs1)
  have hls2 : Real.log (1 - sigmoid x) ≤ 0 :=
    Real.log_nonpos (by linarith) (by linarith)
  have h1 : y * Real.log (sigmoid x) ≤ 0 :=
    mul_nonpos_of_nonneg_of_nonpos hy0 hls
  have h2 : (1 - y) * Real.log (1 - sigmoid x) ≤ 0 :=
    mul_nonpos_of_nonneg_of_nonpos (by linarith) hls2
  unfold bceWithLogits
  linarith

/-- For targets in `[0, 1]`, each focal-loss element is between `0` and
`alpha` times the corresponding BCE element. -/
theorem focal_element_bounds (x y : ℝ) (hy0 : 0 ≤ y) (hy1 : y ≤ 1) :
    0 ≤ 1 / 4 * (1 - Real.exp (-(bceWithLogits x y))) ^ 2 * bceWithLogits x y ∧
      1 / 4 * (1 - Real.exp (-(bceWithLogits x y))) ^ 2 * bceWithLogits x y ≤
        1 / 4 * bceWithLogits x y := by
  have hB := bce_nonneg x y hy0 hy1
  have hpt0 : 0 < Real.exp (-(bceWithLogits x y)) := Real.exp_pos _
  have hpt1 : Real.exp (-(bceWithLogits x y)) ≤ 1 :=
    Real.exp_le_one_iff.mpr (by linarith)
  have hm0 : 0 ≤ (1 - Real.exp (-(bceWithLogits x y))) ^ 2 := sq_nonneg _
  have hm1 : (1 - Real.exp (-(bceWithLogits x y))) ^ 2 ≤ 1 := by
    nlinarith
  constructor
  · positivity
  · nlinarith

/-- C7, counterexample.  The claimed bounds are not universal: with target
value `2` (outside `[0, 1]`) the BCE element is negative, so the focal
loss itself goes negative.  Input logit `log 3`, target `2`. -/
theorem C7_counterexample :
    criterion.forward ⟨1, 1, 1, 1, fun _ _ _ _ => Real.log 3⟩
      ⟨1, 1, 1, 1, fun _ _ _ _ => 2⟩ < 0 := by
  have hsig : sigmoid (Real.log 3) = 3 / 4 := by
    unfold sigmoid
    rw [Real.exp_neg, Real.exp_log (by norm_num : (0 : ℝ) < 3)]
    norm_num
  have h9 : Real.log 9 = 2 * Real.log 3 := by
    rw [show (9 : ℝ) = 3 ^ 2 by norm_num, Real.log_pow]
    push_cast
    ring
  have hB : bceWithLogits (Real.log 3) 2 = Real.log 4 - Real.log 9 := by
    unfold bceWithLogits
    rw [hsig, show (1 : ℝ) - 3 / 4 = 1 / 4 by norm_num,
      show (3 : ℝ) / 4 = 3 / 4 by norm_num]
    rw [show Real.log (3 / 4 : ℝ) = Real.log 3 - Real.log 4 from
      Real.log_div (by norm_num) (by norm_num)]
    rw [one_div, Real.log_inv, h9]
    ring
  have hBneg : bceWithLogits (Real.log 3) 2 < 0 := by
    rw [hB]
    have := Real.log_lt_log (show (0 : ℝ) < 4 by norm_num)
      (show (4 : ℝ) < 9 by norm_num)
    linarith
  have hpt : Real.exp (-bceWithLogits (Real.log 3) 2) = 9 / 4 := by
    rw [hB, neg_sub, Real.exp_sub, Real.exp_log (by norm_num : (0 : ℝ) < 9),
      Real.exp_log (by norm_num : (0 : ℝ) < 4)]
  simp only [FocalLoss.forward, bceTensor, mean4, criterion,
    Finset.sum_range_succ, Finset.sum_range_zero]
  rw [hpt]
  nlinarith [hBneg]

/-- C7, amended.  For targets valued in `[0, 1]` (as the notebook's masks
are), the focal loss is sandwiched between `0` and `alpha` times the mean
BCE-with-logits loss, because the modulating factor lies in `[0, 1]`. -/
theorem C7_focal_downweights (inputs targets : Tensor4)
    (htar : ∀ n c h w, n < inputs.numN → c < inputs.numC → h < inputs.numH →
      w < inputs.numW →
      0 ≤ targets.data n c h w ∧ targets.data n c h w ≤ 1) :
    0 ≤ criterion.forward inputs targets ∧
      criterion.forward inputs targets ≤
        criterion.alpha * mean4 (bceTensor inputs targets) := by
  have helem : ∀ n c h w, n < inputs.numN → c < inputs.numC →
      h < inputs.numH → w < inputs.numW →
      0 ≤ 1 / 4 *
        (1 - Real.exp (-(bceWithLogits (inputs.data n c h w) (targets.data n c h w)))) ^ 2 *
        bceWithLogits (inputs.data n c h w) (targets.data n c h w) ∧
      1 / 4 *
        (1 - Real.exp (-(bceWithLogits (inputs.data n c h w) (targets.data n c h w)))) ^ 2 *
        bceWithLogits (inputs.data n c h w) (targets.data n c h w) ≤
        1 / 4 * bceWithLogits (inputs.data n c h w) (targets.data n c h w) := by
    intro n c h w hn hc hh hw
    exact focal_element_bounds _ _ (htar n c h w hn hc hh hw).1
      (htar n c h w hn hc hh hw).2
  simp only [FocalLoss.forward, bceTensor, mean4, criterion]
  constructor
  · refine div_nonneg ?_ (by positivity)
    refine Finset.sum_nonneg fun n hn => Finset.sum_nonneg fun c hc =>
      Finset.sum_nonneg fun h hh => Finset.sum_nonneg fun w hw => ?_
    exact (helem n c h w (Finset.mem_range.mp hn) (Finset.mem_range.mp hc)
      (Finset.mem_range.mp hh) (Finset.mem_range.mp hw)).1
  · have hsum : (∑ n ∈ Finset.range inputs.numN, ∑ c ∈ Finset.range inputs.numC,
        ∑ h ∈ Finset.range inputs.numH, ∑ w ∈ Finset.range inputs.numW,
          1 / 4 *
            (1 - Real.exp (-(bceWithLogits (inputs.data n c h w)
              (targets.data n c h w)))) ^ 2 *
            bceWithLogits (inputs.data n c h w) (targets.data n c h w)) ≤
        ∑ n ∈ Finset.range inputs.numN, ∑ c ∈ Finset.range inputs.numC,
        ∑ h ∈ Finset.range inputs.numH, ∑ w ∈ Finset.range inputs.numW,
          1 / 4 * bceWithLogits (inputs.data n c h w) (targets.data n c h w) := by
      refine Finset.sum_le_sum fun n hn => Finset.sum_le_sum fun c hc =>
        Finset.sum_le_sum fun h hh => Finset.sum_le_sum fun w hw => ?_
      exact (helem n c h w (Finset.mem_range.mp hn) (Finset.mem_range.mp hc)
        (Finset.mem_range.mp hh) (Finset.mem_range.mp hw)).2
    have hpull : (∑ n ∈ Finset.range inputs.numN, ∑ c ∈ Finset.range inputs.numC,
        ∑ h ∈ Finset.range inputs.numH, ∑ w ∈ Finset.range inputs.numW,
          1 / 4 * bceWithLogits (inputs.data n c h w) (targets.data n c h w)) =
        1 / 4 * ∑ n ∈ Finset.range inputs.numN, ∑ c ∈ Finset.range inputs.numC,
        ∑ h ∈ Finset.range inputs.numH, ∑ w ∈ Finset.range inputs.numW,
          bceWithLogits (inputs.data n c h w) (targets.data n c h w) := by
      simp only [Finset.mul_sum]
    rw [← mul_div_assoc]
    gcongr
    exact hsum.trans (le_of_eq hpull)

/-- Witness for `C7_focal_downweights` at logit `0`, target `1`. -/
theorem C7_focal_downweights_witness :
    0 ≤ criterion.forward ⟨1, 1, 1, 1, fun _ _ _ _ => 0⟩
        ⟨1, 1, 1, 1, fun _ _ _ _ => 1⟩ ∧
      criterion.forward ⟨1, 1, 1, 1, fun _ _ _ _ => 0⟩
          ⟨1, 1, 1, 1, fun _ _ _ _ => 1⟩ ≤
        criterion.alpha * mean4 (bceTensor ⟨1, 1, 1, 1, fun _ _ _ _ => 0⟩
          ⟨1, 1, 1, 1, fun _ _ _ _ => 1⟩) :=
  C7_focal_downweights _ _ (fun _ _ _ _ _ _ _ _ => by norm_num)

end

/-! ### Shape semantics of the `UNet` architecture

Each framework layer is modelled by its effect on a tensor shape
`(N, C, H, W)`; a layer that would raise in PyTorch (channel mismatch,
spatial extent too small) yields `none`. -/

/-- A tensor shape `(N, C, H, W)`. -/
structure Shape where
  n : ℕ
  c : ℕ
  h : ℕ
  w : ℕ
deriving DecidableEq

/-- `nn.Conv2d(cin, cout, k, s, p)` on shapes: output spatial extent is
`(x + 2p - k) / s + 1` (floor), defined when the padded input covers the
kernel and the channels match. -/
def conv2dS (cin cout k s p : ℕ) (x : Shape) : Option Shape :=
  if x.c = cin ∧ k ≤ x.h + 2 * p ∧ k ≤ x.w + 2 * p then
    some ⟨x.n, cout, (x.h + 2 * p - k) / s + 1, (x.w + 2 * p - k) / s + 1⟩
  else none

/-- `nn.BatchNorm2d(nf)` on shapes: identity, defined when channels match. -/
def batchNorm2dS (nf : ℕ) (x : Shape) : Option Shape :=
  if x.c = nf then some x else none

/-- `nn.ReLU` on shapes. -/
def reluS (x : Shape) : Option Shape := some x

/-- `nn.Dropout` on shapes. -/
def dropoutS (x : Shape) : Option Shape := some x

/-- `nn.MaxPool2d(2)` on shapes: kernel 2, stride 2, no padding. -/
def maxPool2S (x : Shape) : Option Shape :=
  if 2 ≤ x.h ∧ 2 ≤ x.w then
    some ⟨x.n, x.c, (x.h - 2) / 2 + 1, (x.w - 2) / 2 + 1⟩
  else none

/-- `nn.ConvTranspose2d(cin, cout, 2, 2, 0)` on shapes: output extent is
`(x - 1) * 2 + 2`. -/
def convT2dS (cin cout : ℕ) (x : Shape) : Option Shape :=
  if x.c = cin ∧ 1 ≤ x.h ∧ 1 ≤ x.w then
    some ⟨x.n, cout, (x.h - 1) * 2 + 2, (x.w - 1) * 2 + 2⟩
  else none

/-- The `CBR` block: `Conv2d(·,·,3,1,1) → BatchNorm2d → ReLU → Dropout`. -/
def CBRS (cin cout : ℕ) (x : Shape) : Option Shape :=
  (((conv2dS cin cout 3 1 1 x).bind (batchNorm2dS cout)).bind reluS).bind dropoutS

/-- An encoder stage: `CBR → CBR → MaxPool2d(2)`. -/
def encoderS (cin cout : ℕ) (x : Shape) : Option Shape :=
  ((CBRS cin cout x).bind (CBRS cout cout)).bind maxPool2S

/-- A decoder stage: `ConvTranspose2d(·,·,2,2,0) → CBR → CBR`. -/
def decoderS (cin cout : ℕ) (x : Shape) : Option Shape :=
  ((convT2dS cin cout x).bind (CBRS cout cout)).bind (CBRS cout cout)

/-- The bottleneck: `CBR(512,1024) → CBR(1024,1024) → CBR(1024,1024)`. -/
def bottleneckS (x : Shape) : Option Shape :=
  ((CBRS 512 1024 x).bind (CBRS 1024 1024)).bind (CBRS 1024 1024)

/-- `torchvision.transforms.CenterCrop([th, tw])` on shapes: the output
spatial extents are always the target extents. -/
def centerCropS (th tw : ℕ) (x : Shape) : Shape := ⟨x.n, x.c, th, tw⟩

/-- `torch.cat([a, b], 1)` on shapes: channels add; defined when the other
extents agree. -/
def catChannelS (a b : Shape) : Option Shape :=
  if a.n = b.n ∧ a.h = b.h ∧ a.w = b.w then some ⟨a.n, a.c + b.c, a.h, a.w⟩
  else none

/-- `crop_and_concat(up, down)`: center-crop `down` to `up`'s spatial size
and concatenate along channels. -/
def cropAndConcatS (up down : Shape) : Option Shape :=
  catChannelS up (centerCropS up.h up.w down)

/-- `UNet.forward` on shapes: four encoder stages, bottleneck, four
decoder stages with `crop_and_concat` skip connections, final `1 × 1`
convolution to one channel. -/
def unetForwardS (x : Shape) : Option Shape :=
  (encoderS 3 64 x).bind fun e1 =>
  (encoderS 64 128 e1).bind fun e2 =>
  (encoderS 128 256 e2).bind fun e3 =>
  (encoderS 256 512 e3).bind fun e4 =>
  (bottleneckS e4).bind fun bo =>
  (cropAndConcatS bo e4).bind fun z1 =>
  (decoderS 1536 1024 z1).bind fun d1 =>
  (cropAndConcatS d1 e3).bind fun z2 =>
  (decoderS (1024 + 256) 512 z2).bind fun d2 =>
  (cropAndConcatS d2 e2).bind fun z3 =>
  (decoderS (512 + 128) 256 z3).bind fun d3 =>
  (cropAndConcatS d3 e1).bind fun z4 =>
  (decoderS (256 + 64) 128 z4).bind fun d4 =>
  conv2dS 128 1 1 1 0 d4

theorem conv2dS_311 (cin cout n h w : ℕ) (hh : 1 ≤ h) (hw : 1 ≤ w) :
    conv2dS cin cout 3 1 1 ⟨n, cin, h, w⟩ = some ⟨n, cout, h, w⟩ := by
  unfold conv2dS
  rw [if_pos ⟨rfl, (by omega : 3 ≤ h + 2 * 1), (by omega : 3 ≤ w + 2 * 1)⟩]
  show some (⟨n, cout, (h + 2 * 1 - 3) / 1 + 1, (w + 2 * 1 - 3) / 1 + 1⟩ : Shape) =
    some ⟨n, cout, h, w⟩
  have h1 : (h + 2 * 1 - 3) / 1 + 1 = h := by omega
  have h2 : (w + 2 * 1 - 3) / 1 + 1 = w := by omega
  rw [h1, h2]

theorem conv2dS_110 (cin cout n h w : ℕ) (hh : 1 ≤ h) (hw : 1 ≤ w) :
    conv2dS cin cout 1 1 0 ⟨n, cin, h, w⟩ = some ⟨n, cout, h, w⟩ := by
  unfold conv2dS
  rw [if_pos ⟨rfl, (by omega : 1 ≤ h + 2 * 0), (by omega : 1 ≤ w + 2 * 0)⟩]
  show some (⟨n, cout, (h + 2 * 0 - 1) / 1 + 1, (w + 2 * 0 - 1) / 1 + 1⟩ : Shape) =
    some ⟨n, cout, h, w⟩
  have h1 : (h + 2 * 0 - 1) / 1 + 1 = h := by omega
  have h2 : (w + 2 * 0 - 1) / 1 + 1 = w := by omega
  rw [h1, h2]

theorem batchNorm2dS_eq (nf n h w : ℕ) :
    batchNorm2dS nf ⟨n, nf, h, w⟩ = some ⟨n, nf, h, w⟩ := by
  unfold batchNorm2dS
  rw [if_pos rfl]

theorem maxPool2S_eq (n c a b : ℕ) (ha : 1 ≤ a) (hb : 1 ≤ b) :
    maxPool2S ⟨n, c, 2 * a, 2 * b⟩ = some ⟨n, c, a, b⟩ := by
  unfold maxPool2S
  rw [if_pos ⟨(by omega : 2 ≤ 2 * a), (by omega : 2 ≤ 2 * b)⟩]
  show some (⟨n, c, (2 * a - 2) / 2 + 1, (2 * b - 2) / 2 + 1⟩ : Shape) = some ⟨n, c, a, b⟩
  have h1 : (2 * a - 2) / 2 + 1 = a := by omega
  have h2 : (2 * b - 2) / 2 + 1 = b := by omega
  rw [h1, h2]

theorem convT2dS_eq (cin cout n h w : ℕ) (hh : 1 ≤ h) (hw : 1 ≤ w) :
    convT2dS cin cout ⟨n, cin, h, w⟩ = some ⟨n, cout, 2 * h, 2 * w⟩ := by
  unfold convT2dS
  rw [if_pos ⟨rfl, hh, hw⟩]
  show some (⟨n, cout, (h - 1) * 2 + 2, (w - 1) * 2 + 2⟩ : Shape) = some ⟨n, cout, 2 * h, 2 * w⟩
  have h1 : (h - 1) * 2 + 2 = 2 * h := by omega
  have h2 : (w - 1) * 2 + 2 = 2 * w := by omega
  rw [h1, h2]

theorem CBRS_eq (cin cout n h w : ℕ) (hh : 1 ≤ h) (hw : 1 ≤ w) :
    CBRS cin cout ⟨n, cin, h, w⟩ = some ⟨n, cout, h, w⟩ := by
  unfold CBRS
  rw [conv2dS_311 cin cout n h w hh hw]
  simp only [Option.some_bind]
  rw [batchNorm2dS_eq cout n h w]
  simp only [Option.some_bind, reluS, dropoutS]

theorem encoderS_eq (cin cout n a b : ℕ) (ha : 1 ≤ a) (hb : 1 ≤ b) :
    encoderS cin cout ⟨n, cin, 2 * a, 2 * b⟩ = some ⟨n, cout, a, b⟩ := by
  unfold encoderS
  rw [CBRS_eq cin cout n (2 * a) (2 * b) (by omega) (by omega)]
  simp only [Option.some_bind]
  rw [CBRS_eq cout cout n (2 * a) (2 * b) (by omega) (by omega)]
  simp only [Option.some_bind]
  exact maxPool2S_eq n cout a b ha hb

theorem decoderS_eq (cin cout n h w : ℕ) (hh : 1 ≤ h) (hw : 1 ≤ w) :
    decoderS cin cout ⟨n, cin, h, w⟩ = some ⟨n, cout, 2 * h, 2 * w⟩ := by
  unfold decoderS
  rw [convT2dS_eq cin cout n h w hh hw]
  simp only [Option.some_bind]
  rw [CBRS_eq cout cout n (2 * h) (2 * w) (by omega) (by omega)]
  simp only [Option.some_bind]
  exact CBRS_eq cout cout n (2 * h) (2 * w) (by omega) (by omega)

theorem bottleneckS_eq (n h w : ℕ) (hh : 1 ≤ h) (hw : 1 ≤ w) :
    bottleneckS ⟨n, 512, h, w⟩ = some ⟨n, 1024, h, w⟩ := by
  unfold bottleneckS
  rw [CBRS_eq 512 1024 n h w hh hw]
  simp only [Option.some_bind]
  rw [CBRS_eq 1024 1024 n h w hh hw]
  simp only [Option.some_bind]
  rw [CBRS_eq 1024 1024 n h w hh hw]

theorem cropAndConcatS_eq (n c1 c2 h w h2 w2 : ℕ) :
    cropAndConcatS ⟨n, c1, h, w⟩ ⟨n, c2, h2, w2⟩ = some ⟨n, c1 + c2, h, w⟩ := by
  simp [cropAndConcatS, catChannelS, centerCropS]

/-- All stage shapes of `UNet.forward` on an input `(n, 3, 16a, 16b)`:
each encoder stage halves the spatial extents, the bottleneck preserves
them, each concatenation point has channel count `1536 / 1280 / 640 / 320`,
each decoder stage doubles the extents, and the final `1 × 1` convolution
maps to one channel at full resolution. -/
theorem unet_stage_chain (n a b : ℕ) (ha : 1 ≤ a) (hb : 1 ≤ b) :
    encoderS 3 64 ⟨n, 3, 16 * a, 16 * b⟩ = some ⟨n, 64, 8 * a, 8 * b⟩ ∧
    encoderS 64 128 ⟨n, 64, 8 * a, 8 * b⟩ = some ⟨n, 128, 4 * a, 4 * b⟩ ∧
    encoderS 128 256 ⟨n, 128, 4 * a, 4 * b⟩ = some ⟨n, 256, 2 * a, 2 * b⟩ ∧
    encoderS 256 512 ⟨n, 256, 2 * a, 2 * b⟩ = some ⟨n, 512, a, b⟩ ∧
    bottleneckS ⟨n, 512, a, b⟩ = some ⟨n, 1024, a, b⟩ ∧
    cropAndConcatS ⟨n, 1024, a, b⟩ ⟨n, 512, a, b⟩ = some ⟨n, 1536, a, b⟩ ∧
    decoderS 1536 1024 ⟨n, 1536, a, b⟩ = some ⟨n, 1024, 2 * a, 2 * b⟩ ∧
    cropAndConcatS ⟨n, 1024, 2 * a, 2 * b⟩ ⟨n, 256, 2 * a, 2 * b⟩ =
      some ⟨n, 1280, 2 * a, 2 * b⟩ ∧
    decoderS (1024 + 256) 512 ⟨n, 1280, 2 * a, 2 * b⟩ =
      some ⟨n, 512, 4 * a, 4 * b⟩ ∧
    cropAndConcatS ⟨n, 512, 4 * a, 4 * b⟩ ⟨n, 128, 4 * a, 4 * b⟩ =
      some ⟨n, 640, 4 * a, 4 * b⟩ ∧
    decoderS (512 + 128) 256 ⟨n, 640, 4 * a, 4 * b⟩ =
      some ⟨n, 256, 8 * a, 8 * b⟩ ∧
    cropAndConcatS ⟨n, 256, 8 * a, 8 * b⟩ ⟨n, 64, 8 * a, 8 * b⟩ =
      some ⟨n, 320, 8 * a, 8 * b⟩ ∧
    decoderS (256 + 64) 128 ⟨n, 320, 8 * a, 8 * b⟩ =
      some ⟨n, 128, 16 * a, 16 * b⟩ ∧
    conv2dS 128 1 1 1 0 ⟨n, 128, 16 * a, 16 * b⟩ = some ⟨n, 1, 16 * a, 16 * b⟩ ∧
    unetForwardS ⟨n, 3, 16 * a, 16 * b⟩ = some ⟨n, 1, 16 * a, 16 * b⟩ := by
  have e1 : encoderS 3 64 ⟨n, 3, 16 * a, 16 * b⟩ = some ⟨n, 64, 8 * a, 8 * b⟩ := by
    rw [show 16 * a = 2 * (8 * a) by ring, show 16 * b = 2 * (8 * b) by ring]
    exact encoderS_eq 3 64 n (8 * a) (8 * b) (by omega) (by omega)
  have e2 : encoderS 64 128 ⟨n, 64, 8 * a, 8 * b⟩ = some ⟨n, 128, 4 * a, 4 * b⟩ := by
    rw [show 8 * a = 2 * (4 * a) by ring, show 8 * b = 2 * (4 * b) by ring]
    exact encoderS_eq 64 128 n (4 * a) (4 * b) (by omega) (by omega)
  have e3 : encoderS 128 256 ⟨n, 128, 4 * a, 4 * b⟩ = some ⟨n, 256, 2 * a, 2 * b⟩ := by
    rw [show 4 * a = 2 * (2 * a) by ring, show 4 * b = 2 * (2 * b) by ring]
    exact encoderS_eq 128 256 n (2 * a) (2 * b) (by omega) (by omega)
  have e4 : encoderS 256 512 ⟨n, 256, 2 * a, 2 * b⟩ = some ⟨n, 512, a, b⟩ :=
    encoderS_eq 256 512 n a b ha hb
  have bo : bottleneckS ⟨n, 512, a, b⟩ = some ⟨n, 1024, a, b⟩ :=
    bottleneckS_eq n a b ha hb
  have z1 : cropAndConcatS ⟨n, 1024, a, b⟩ ⟨n, 512, a, b⟩ =
      some ⟨n, 1536, a, b⟩ := by
    rw [cropAndConcatS_eq]
  have d1 : decoderS 1536 1024 ⟨n, 1536, a, b⟩ = some ⟨n, 1024, 2 * a, 2 * b⟩ :=
    decoderS_eq 1536 1024 n a b ha hb
  have z2 : cropAndConcatS ⟨n, 1024, 2 * a, 2 * b⟩ ⟨n, 256, 2 * a, 2 * b⟩ =
      some ⟨n, 1280, 2 * a, 2 * b⟩ := by
    rw [cropAndConcatS_eq]
  have d2 : decoderS (1024 + 256) 512 ⟨n, 1280, 2 * a, 2 * b⟩ =
      some ⟨n, 512, 4 * a, 4 * b⟩ := by
    rw [show (1280 : ℕ) = 1024 + 256 by norm_num,
      show 4 * a = 2 * (2 * a) by ring, show 4 * b = 2 * (2 * b) by ring]
    exact decoderS_eq (1024 + 256) 512 n (2 * a) (2 * b) (by omega) (by omega)
  have z3 : cropAndConcatS ⟨n, 512, 4 * a, 4 * b⟩ ⟨n, 128, 4 * a, 4 * b⟩ =
      some ⟨n, 640, 4 * a, 4 * b⟩ := by
    rw [cropAndConcatS_eq]
  have d3 : decoderS (512 + 128) 256 ⟨n, 640, 4 * a, 4 * b⟩ =
      some ⟨n, 256, 8 * a, 8 * b⟩ := by
    rw [show (640 : ℕ) = 512 + 128 by norm_num,
      show 8 * a = 2 * (4 * a) by ring, show 8 * b = 2 * (4 * b) by ring]
    exact decoderS_eq (512 + 128) 256 n (4 * a) (4 * b) (by omega) (by omega)
  have z4 : cropAndConcatS ⟨n, 256, 8 * a, 8 * b⟩ ⟨n, 64, 8 * a, 8 * b⟩ =
      some ⟨n, 320, 8 * a, 8 * b⟩ := by
    rw [cropAndConcatS_eq]
  have d4 : decoderS (256 + 64) 128 ⟨n, 320, 8 * a, 8 * b⟩ =
      some ⟨n, 128, 16 * a, 16 * b⟩ := by
    rw [show (320 : ℕ) = 256 + 64 by norm_num,
      show 16 * a = 2 * (8 * a) by ring, show 16 * b = 2 * (8 * b) by ring]
    exact decoderS_eq (256 + 64) 128 n (8 * a) (8 * b) (by omega) (by omega)
  have fin : conv2dS 128 1 1 1 0 ⟨n, 128, 16 * a, 16 * b⟩ =
      some ⟨n, 1, 16 * a, 16 * b⟩ :=
    conv2dS_110 128 1 n (16 * a) (16 * b) (by omega) (by omega)
  have fwd : unetForwardS ⟨n, 3, 16 * a, 16 * b⟩ = some ⟨n, 1, 16 * a, 16 * b⟩ := by
    unfold unetForwardS
    rw [e1]; simp only [Option.some_bind]
    rw [e2]; simp only [Option.some_bind]
    rw [e3]; simp only [Option.some_bind]
    rw [e4]; simp only [Option.some_bind]
    rw [bo]; simp only [Option.some_bind]
    rw [z1]; simp only [Option.some_bind]
    rw [d1]; simp only [Option.some_bind]
    rw [z2]; simp only [Option.some_bind]
    rw [d2]; simp only [Option.some_bind]
    rw [z3]; simp only [Option.some_bind]
    rw [d3]; simp only [Option.some_bind]
    rw [z4]; simp only [Option.some_bind]
    rw [d4]; simp only [Option.some_bind]
    exact fin
  exact ⟨e1, e2, e3, e4, bo, z1, d1, z2, d2, z3, d3, z4, d4, fin, fwd⟩

/-- C3: on an `(N, 3, H, W)` input with `H` and `W` positive multiples of
16, `UNet.forward` produces shape `(N, 1, H, W)` — one logit per input
pixel — through four halving encoder stages, a resolution-preserving
bottleneck, concatenation points with `1536 / 1280 / 640 / 320` channels
matching the decoder input channels, and four doubling decoder stages. -/
theorem C3_unet_dense_prediction (n h w : ℕ) (hh : 16 ∣ h) (hw : 16 ∣ w)
    (h0 : 0 < h) (w0 : 0 < w) :
    unetForwardS ⟨n, 3, h, w⟩ = some ⟨n, 1, h, w⟩ ∧
    ∃ a b, h = 16 * a ∧ w = 16 * b ∧
      encoderS 3 64 ⟨n, 3, h, w⟩ = some ⟨n, 64, 8 * a, 8 * b⟩ ∧
      encoderS 64 128 ⟨n, 64, 8 * a, 8 * b⟩ = some ⟨n, 128, 4 * a, 4 * b⟩ ∧
      encoderS 128 256 ⟨n, 128, 4 * a, 4 * b⟩ = some ⟨n, 256, 2 * a, 2 * b⟩ ∧
      encoderS 256 512 ⟨n, 256, 2 * a, 2 * b⟩ = some ⟨n, 512, a, b⟩ ∧
      bottleneckS ⟨n, 512, a, b⟩ = some ⟨n, 1024, a, b⟩ ∧
      cropAndConcatS ⟨n, 1024, a, b⟩ ⟨n, 512, a, b⟩ = some ⟨n, 1536, a, b⟩ ∧
      decoderS 1536 1024 ⟨n, 1536, a, b⟩ = some ⟨n, 1024, 2 * a, 2 * b⟩ ∧
      cropAndConcatS ⟨n, 1024, 2 * a, 2 * b⟩ ⟨n, 256, 2 * a, 2 * b⟩ =
        some ⟨n, 1280, 2 * a, 2 * b⟩ ∧
      decoderS (1024 + 256) 512 ⟨n, 1280, 2 * a, 2 * b⟩ =
        some ⟨n, 512, 4 * a, 4 * b⟩ ∧
      cropAndConcatS ⟨n, 512, 4 * a, 4 * b⟩ ⟨n, 128, 4 * a, 4 * b⟩ =
        some ⟨n, 640, 4 * a, 4 * b⟩ ∧
      decoderS (512 + 128) 256 ⟨n, 640, 4 * a, 4 * b⟩ =
        some ⟨n, 256, 8 * a, 8 * b⟩ ∧
      cropAndConcatS ⟨n, 256, 8 * a, 8 * b⟩ ⟨n, 64, 8 * a, 8 * b⟩ =
        some ⟨n, 320, 8 * a, 8 * b⟩ ∧
      decoderS (256 + 64) 128 ⟨n, 320, 8 * a, 8 * b⟩ =
        some ⟨n, 128, h, w⟩ ∧
      conv2dS 128 1 1 1 0 ⟨n, 128, h, w⟩ = some ⟨n, 1, h, w⟩ := by
  obtain ⟨a, rfl⟩ := hh
  obtain ⟨b, rfl⟩ := hw
  have ha : 1 ≤ a := by omega
  have hb : 1 ≤ b := by omega
  obtain ⟨e1, e2, e3, e4, bo, z1, d1, z2, d2, z3, d3, z4, d4, fin, fwd⟩ :=
    unet_stage_chain n a b ha hb
  exact ⟨fwd, a, b, rfl, rfl, e1, e2, e3, e4, bo, z1, d1, z2, d2, z3, d3, z4,
    d4, fin⟩

/-- Witness for `C3_unet_dense_prediction` at a `(1, 3, 16, 16)` input. -/
theorem C3_unet_dense_prediction_witness :
    unetForwardS ⟨1, 3, 16, 16⟩ = some ⟨1, 1, 16, 16⟩ :=
  (C3_unet_dense_prediction 1 16 16 (by norm_num) (by norm_num) (by norm_num)
    (by norm_num)).1

/-- Python's `round()` (round half to even) of `n / 2` for a natural `n`:
torchvision's `CenterCrop` computes its crop offset as
`int(round((size - target) / 2.0))`. -/
def pyHalf (n : ℕ) : ℕ :=
  if n % 2 = 0 then n / 2
  else if (n / 2) % 2 = 0 then n / 2 else n / 2 + 1

/-- Center-crop one row to width `tw` (the crop branch of torchvision's
`CenterCrop`; when the target exceeds the size torchvision pads instead, a
case never reached at the equal sizes used in `UNet.forward`). -/
def centerCropRow (tw : ℕ) (r : List ℝ) : List ℝ :=
  (r.drop (pyHalf (r.length - tw))).take tw

/-- Center-crop a 2-D image to `th × tw` (crop branch, as above). -/
def centerCropImg (th tw : ℕ) (img : List (List ℝ)) : List (List ℝ) :=
  ((img.drop (pyHalf (img.length - th))).take th).map (centerCropRow tw)

theorem centerCropRow_self (r : List ℝ) (tw : ℕ) (h : r.length = tw) :
    centerCropRow tw r = r := by
  subst h
  simp [centerCropRow, pyHalf]

theorem centerCropImg_self (img : List (List ℝ)) (th tw : ℕ)
    (hth : img.length = th) (htw : ∀ r ∈ img, r.length = tw) :
    centerCropImg th tw img = img := by
  subst hth
  unfold centerCropImg
  rw [Nat.sub_self, show pyHalf 0 = 0 by rfl, List.drop_zero, List.take_length]
  induction img with
  | nil => rfl
  | cons r rs ih =>
      simp only [List.map_cons, List.cons.injEq]
      constructor
      · exact centerCropRow_self r tw (htw r (List.mem_cons_self r rs))
      · exact ih fun s hs => htw s (List.mem_cons_of_mem r hs)

/-- C4: the four skip connections concatenate the previous stage's output
with the center-crop of the matching encoder stage's output — bottleneck
with enc4, dec1 with enc3, dec2 with enc2, dec3 with enc1 — and at each
point the two tensors already have equal spatial extents, so the shape
crop is the identity there; moreover, value-level center-cropping any
image to its own size returns it unchanged. -/
theorem C4_skip_connections (n h w : ℕ) (hh : 16 ∣ h) (hw : 16 ∣ w)
    (h0 : 0 < h) (w0 : 0 < w) :
    (∃ a b, h = 16 * a ∧ w = 16 * b ∧
      encoderS 3 64 ⟨n, 3, h, w⟩ = some ⟨n, 64, 8 * a, 8 * b⟩ ∧
      encoderS 64 128 ⟨n, 64, 8 * a, 8 * b⟩ = some ⟨n, 128, 4 * a, 4 * b⟩ ∧
      encoderS 128 256 ⟨n, 128, 4 * a, 4 * b⟩ = some ⟨n, 256, 2 * a, 2 * b⟩ ∧
      encoderS 256 512 ⟨n, 256, 2 * a, 2 * b⟩ = some ⟨n, 512, a, b⟩ ∧
      bottleneckS ⟨n, 512, a, b⟩ = some ⟨n, 1024, a, b⟩ ∧
      centerCropS a b ⟨n, 512, a, b⟩ = ⟨n, 512, a, b⟩ ∧
      cropAndConcatS ⟨n, 1024, a, b⟩ ⟨n, 512, a, b⟩ = some ⟨n, 1536, a, b⟩ ∧
      decoderS 1536 1024 ⟨n, 1536, a, b⟩ = some ⟨n, 1024, 2 * a, 2 * b⟩ ∧
      centerCropS (2 * a) (2 * b) ⟨n, 256, 2 * a, 2 * b⟩ = ⟨n, 256, 2 * a, 2 * b⟩ ∧
      cropAndConcatS ⟨n, 1024, 2 * a, 2 * b⟩ ⟨n, 256, 2 * a, 2 * b⟩ =
        some ⟨n, 1280, 2 * a, 2 * b⟩ ∧
      decoderS (1024 + 256) 512 ⟨n, 1280, 2 * a, 2 * b⟩ =
        some ⟨n, 512, 4 * a, 4 * b⟩ ∧
      centerCropS (4 * a) (4 * b) ⟨n, 128, 4 * a, 4 * b⟩ = ⟨n, 128, 4 * a, 4 * b⟩ ∧
      cropAndConcatS ⟨n, 512, 4 * a, 4 * b⟩ ⟨n, 128, 4 * a, 4 * b⟩ =
        some ⟨n, 640, 4 * a, 4 * b⟩ ∧
      decoderS (512 + 128) 256 ⟨n, 640, 4 * a, 4 * b⟩ =
        some ⟨n, 256, 8 * a, 8 * b⟩ ∧
      centerCropS (8 * a) (8 * b) ⟨n, 64, 8 * a, 8 * b⟩ = ⟨n, 64, 8 * a, 8 * b⟩ ∧
      cropAndConcatS ⟨n, 256, 8 * a, 8 * b⟩ ⟨n, 64, 8 * a, 8 * b⟩ =
        some ⟨n, 320, 8 * a, 8 * b⟩) ∧
    ∀ (img : List (List ℝ)) (th tw : ℕ), img.length = th →
      (∀ r ∈ img, r.length = tw) → centerCropImg th tw img = img := by
  obtain ⟨a, rfl⟩ := hh
  obtain ⟨b, rfl⟩ := hw
  have ha : 1 ≤ a := by omega
  have hb : 1 ≤ b := by omega
  obtain ⟨e1, e2, e3, e4, bo, z1, d1, z2, d2, z3, d3, z4, _, _, _⟩ :=
    unet_stage_chain n a b ha hb
  exact ⟨⟨a, b, rfl, rfl, e1, e2, e3, e4, bo, rfl, z1, d1, rfl, z2, d2, rfl,
    z3, d3, rfl, z4⟩, centerCropImg_self⟩

/-- Witness for `C4_skip_connections`: concrete instance plus the crop
identity at a concrete `2 × 2` image. -/
theorem C4_skip_connections_witness :
    centerCropImg 2 2 [[(0 : ℝ), 1], [2, 3]] = [[(0 : ℝ), 1], [2, 3]] :=
  (C4_skip_connections 1 16 16 (by norm_num) (by norm_num) (by norm_num)
    (by norm_num)).2 [[(0 : ℝ), 1], [2, 3]] 2 2 (by norm_num) (by simp)

/-! ### The test loop (cell 11) -/

noncomputable section

/-- The test loop: with the model in eval mode and gradients disabled
(framework state outside this embedding), it folds over the test batches
accumulating `total_iou += calculate_iou(model(images), masks)` and
`count += 1`. -/
def testLoop (model : Tensor4 → Tensor4)
    (batches : List (Tensor4 × Tensor4)) : ℝ × ℕ :=
  batches.foldl
    (fun acc pb => (acc.1 + calculate_iou4 (model pb.1) pb.2, acc.2 + 1)) (0, 0)

/-- `average_iou = total_iou / count`. -/
def average_iou (model : Tensor4 → Tensor4)
    (batches : List (Tensor4 × Tensor4)) : ℝ :=
  (testLoop model batches).1 / ((testLoop model batches).2 : ℝ)

/-- The `i`-th sample of a batch, as a single-sample batch. -/
def sliceN (i : ℕ) (T : Tensor4) : Tensor4 :=
  ⟨1, T.numC, T.numH, T.numW, fun _ c h w => T.data i c h w⟩

theorem testLoop_foldl_acc (f : Tensor4 × Tensor4 → ℝ)
    (l : List (Tensor4 × Tensor4)) (s : ℝ) (k : ℕ) :
    l.foldl (fun acc pb => (acc.1 + f pb, acc.2 + 1)) (s, k) =
      (s + (l.map f).sum, k + l.length) := by
  induction l generalizing s k with
  | nil => simp
  | cons x xs ih =>
      simp only [List.foldl_cons, List.map_cons, List.sum_cons, List.length_cons]
      rw [ih]
      refine Prod.ext ?_ ?_
      · show s + f x + (xs.map f).sum = s + (f x + (xs.map f).sum)
        ring
      · show k + 1 + xs.length = k + (xs.length + 1)
        omega

/-- The test loop computes the running sum of per-batch values and the
batch count. -/
theorem testLoop_eq (model : Tensor4 → Tensor4)
    (batches : List (Tensor4 × Tensor4)) :
    testLoop model batches =
      ((batches.map (fun pb => calculate_iou4 (model pb.1) pb.2)).sum,
        batches.length) := by
  unfold testLoop
  rw [testLoop_foldl_acc]
  simp

/-- `calculate_iou` on a batch is the batch-size-weighted mean of its
values on the single-sample slices. -/
theorem iou_batch_decomp (P L : Tensor4) :
    calculate_iou4 P L =
      (∑ i ∈ Finset.range P.numN,
        calculate_iou4 (sliceN i P) (sliceN i L)) / (P.numN : ℝ) := by
  simp only [calculate_iou4, sliceN, Finset.sum_range_one, Nat.cast_one, one_mul]
  rw [← Finset.sum_div]
  ring

theorem list_sum_map_div {α : Type} (l : List α) (f : α → ℝ) (c : ℝ) :
    (l.map (fun x => f x / c)).sum = (l.map f).sum / c := by
  induction l with
  | nil => simp
  | cons x xs ih => simp [ih, add_div]

theorem list_map_congr_mem {α β : Type} (l : List α) (f g : α → β)
    (h : ∀ x ∈ l, f x = g x) : l.map f = l.map g := by
  induction l with
  | nil => rfl
  | cons x xs ih =>
      simp only [List.map_cons, List.cons.injEq]
      exact ⟨h x (List.mem_cons_self x xs),
        ih fun y hy => h y (List.mem_cons_of_mem x hy)⟩

/-- C5: the reported metric is `total_iou / count`, the arithmetic mean
over test batches of the per-batch `calculate_iou` value; and when every
batch has the same positive size `k`, it equals the mean over all test
images of the single-image value. -/
theorem C5_average_iou (model : Tensor4 → Tensor4)
    (batches : List (Tensor4 × Tensor4)) (k : ℕ) (_hk : 0 < k)
    (hsz : ∀ pb ∈ batches, (model pb.1).numN = k) :
    average_iou model batches =
      (batches.map (fun pb => calculate_iou4 (model pb.1) pb.2)).sum /
        (batches.length : ℝ) ∧
    average_iou model batches =
      (batches.map (fun pb => ∑ i ∈ Finset.range k,
        calculate_iou4 (sliceN i (model pb.1)) (sliceN i pb.2))).sum /
        ((batches.length * k : ℕ) : ℝ) := by
  have h1 : average_iou model batches =
      (batches.map (fun pb => calculate_iou4 (model pb.1) pb.2)).sum /
        (batches.length : ℝ) := by
    unfold average_iou
    rw [testLoop_eq]
  refine ⟨h1, ?_⟩
  rw [h1]
  have h2 : batches.map (fun pb => calculate_iou4 (model pb.1) pb.2) =
      batches.map (fun pb => (∑ i ∈ Finset.range k,
        calculate_iou4 (sliceN i (model pb.1)) (sliceN i pb.2)) / (k : ℝ)) := by
    refine list_map_congr_mem _ _ _ fun pb hpb => ?_
    rw [iou_batch_decomp (model pb.1) pb.2, hsz pb hpb]
  rw [h2, list_sum_map_div, div_div]
  push_cast
  rw [mul_comm (k : ℝ) (batches.length : ℝ)]

/-- Witness for `C5_average_iou` at one single-sample batch. -/
theorem C5_average_iou_witness :
    average_iou id [(⟨1, 1, 1, 1, fun _ _ _ _ => 0⟩,
        ⟨1, 1, 1, 1, fun _ _ _ _ => 0⟩)] =
      ([(⟨1, 1, 1, 1, fun _ _ _ _ => 0⟩, ⟨1, 1, 1, 1, fun _ _ _ _ => 0⟩)].map
        (fun pb => calculate_iou4 (id pb.1) pb.2)).sum /
        (([((⟨1, 1, 1, 1, fun _ _ _ _ => 0⟩ : Tensor4),
          (⟨1, 1, 1, 1, fun _ _ _ _ => 0⟩ : Tensor4))].length : ℕ) : ℝ) ∧
    average_iou id [(⟨1, 1, 1, 1, fun _ _ _ _ => 0⟩,
        ⟨1, 1, 1, 1, fun _ _ _ _ => 0⟩)] =
      ([(⟨1, 1, 1, 1, fun _ _ _ _ => 0⟩, ⟨1, 1, 1, 1, fun _ _ _ _ => 0⟩)].map
        (fun pb => ∑ i ∈ Finset.range 1,
          calculate_iou4 (sliceN i (id pb.1)) (sliceN i pb.2))).sum /
        (([((⟨1, 1, 1, 1, fun _ _ _ _ => 0⟩ : Tensor4),
          (⟨1, 1, 1, 1, fun _ _ _ _ => 0⟩ : Tensor4))].length * 1 : ℕ) : ℝ) := by
  have hsz : ∀ pb ∈ [((⟨1, 1, 1, 1, fun _ _ _ _ => 0⟩ : Tensor4),
      (⟨1, 1, 1, 1, fun _ _ _ _ => 0⟩ : Tensor4))], (id pb.1).numN = 1 := by
    intro pb hpb
    simp only [List.mem_singleton] at hpb
    subst hpb
    rfl
  exact C5_average_iou id _ 1 (by norm_num) hsz

end

/-! ### The CSV-driven data pipeline (cells 6 and 7)

`Img` abstracts PIL images and tensors alike; `Rng` abstracts the random
state a random transform consumes.  `pandas.read_csv` is reflected by
storing the parsed data rows (header excluded) in `img_labels`. -/

/-- `str.startswith`, modelled on the character list so terms reduce. -/
def strStartsWith (s pre : String) : Bool := pre.toList.isPrefixOf s.toList

/-- `str.endswith`, modelled on the character list so terms reduce. -/
def strEndsWith (s suf : String) : Bool := suf.toList.isSuffixOf s.toList

/-- `os.path.join(a, b)` for POSIX paths: an absolute second component
replaces the first, otherwise a separator is inserted unless already
present. -/
def osPathJoin (a b : String) : String :=
  if strStartsWith b "/" then b
  else if a = "" ∨ strEndsWith a "/" then a ++ b
  else a ++ "/" ++ b

/-- `FloodDataset(csv_file, img_dir, mask_dir, image_transform,
mask_transform)`; `img_labels` holds the CSV's data rows. -/
structure FloodDataset (Img Rng : Type) where
  img_labels : List (List String)
  img_dir : String
  mask_dir : String
  image_transform : Option (Rng → Img → Img) := none
  mask_transform : Option (Rng → Img → Img) := none

/-- `__len__`: the number of data rows. -/
def FloodDataset.len {Img Rng : Type} (ds : FloodDataset Img Rng) : ℕ :=
  ds.img_labels.length

/-- `__getitem__(idx)`: join dirs with columns 0 and 1 of row `idx`, open
and convert (`RGB` for the image, `L` for the mask), apply each transform
exactly when provided, return the pair.  `openImage` abstracts
`Image.open` over the file system's current contents; `none` models the
`IndexError` of an out-of-range index or too-short row. -/
def FloodDataset.getItem {Img Rng : Type} (openImage : String → Img)
    (convertRGB convertL : Img → Img) (ds : FloodDataset Img Rng) (rng : Rng)
    (idx : ℕ) : Option (Img × Img) :=
  (ds.img_labels.get? idx).bind fun row =>
  (row.get? 0).bind fun imgName =>
  (row.get? 1).bind fun maskName =>
  let image := convertRGB (openImage (osPathJoin ds.img_dir imgName))
  let mask := convertL (openImage (osPathJoin ds.mask_dir maskName))
  let image2 := match ds.image_transform with
    | some t => t rng image
    | none => image
  let mask2 := match ds.mask_transform with
    | some t => t rng mask
    | none => mask
  some (image2, mask2)

/-- C6: `FloodDataset` is a CSV-driven file loader: its length is the
number of data rows, and `__getitem__` returns the pair obtained by
joining the directories with columns 0 and 1 of the row, converting to
RGB resp. grayscale, and applying each transform exactly when provided. -/
theorem C6_flood_dataset {Img Rng : Type} (openImage : String → Img)
    (convertRGB convertL : Img → Img) (ds : FloodDataset Img Rng) (rng : Rng)
    (idx : ℕ) (row : List String) (f0 f1 : String)
    (hrow : ds.img_labels.get? idx = some row)
    (h0 : row.get? 0 = some f0) (h1 : row.get? 1 = some f1) :
    ds.len = ds.img_labels.length ∧
    ds.getItem openImage convertRGB convertL rng idx =
      some
        (ds.image_transform.elim
            (convertRGB (openImage (osPathJoin ds.img_dir f0)))
            (fun t => t rng (convertRGB (openImage (osPathJoin ds.img_dir f0)))),
         ds.mask_transform.elim
            (convertL (openImage (osPathJoin ds.mask_dir f1)))
            (fun t => t rng (convertL (openImage (osPathJoin ds.mask_dir f1))))) := by
  refine ⟨rfl, ?_⟩
  unfold FloodDataset.getItem
  rw [hrow]
  simp only [Option.some_bind]
  rw [h0]
  simp only [Option.some_bind]
  rw [h1]
  simp only [Option.some_bind]
  cases ds.image_transform <;> cases ds.mask_transform <;> rfl

/-- Witness for `C6_flood_dataset` on a one-row dataset over `Img := String`. -/
theorem C6_flood_dataset_witness :
    FloodDataset.getItem (fun p => p) (fun s => s ++ ":rgb") (fun s => s ++ ":L")
      ({ img_labels := [["a.png", "b.png"]], img_dir := "img", mask_dir := "mask",
         image_transform := some (fun _ s => s ++ "!") } :
        FloodDataset String Unit) () 0 =
      some ("img/a.png:rgb!", "mask/b.png:L") := by
  have key := C6_flood_dataset (fun p => p) (fun s => s ++ ":rgb")
    (fun s => s ++ ":L")
    ({ img_labels := [["a.png", "b.png"]], img_dir := "img", mask_dir := "mask",
       image_transform := some (fun _ s => s ++ "!") } :
      FloodDataset String Unit) () 0 ["a.png", "b.png"] "a.png" "b.png"
    rfl rfl rfl
  exact key.2.trans (by rfl)

/-- `transforms.Compose`: apply transforms left to right, threading the
random state through each. -/
def composeT {Rng Img : Type} (ts : List (Rng → Img → Img)) (rng : Rng)
    (img : Img) : Img :=
  ts.foldl (fun i t => t rng i) img

/-- A deterministic transform: one that ignores the random state. -/
def liftDet {Rng Img : Type} (f : Img → Img) : Rng → Img → Img := fun _ => f

/-- `data_augmentation` (cell 7): two random flips, color jitter, two more
random flips, random rotation, color jitter — all consuming randomness. -/
def data_augmentationT {Rng Img : Type}
    (randHFlip randVFlip colorJitter randRot : Rng → Img → Img) :
    Rng → Img → Img :=
  composeT [randHFlip, randVFlip, colorJitter, randHFlip, randVFlip, randRot,
    colorJitter]

/-- `image_transform`: `Resize((256,256)) → ToTensor → Normalize`, all
deterministic. -/
def image_transformT {Rng Img : Type} (resize256 toTensor normalizeT : Img → Img) :
    Rng → Img → Img :=
  composeT [liftDet resize256, liftDet toTensor, liftDet normalizeT]

/-- `mask_transform`: `Resize((256,256)) → ToTensor`, deterministic. -/
def mask_transformT {Rng Img : Type} (resize256 toTensor : Img → Img) :
    Rng → Img → Img :=
  composeT [liftDet resize256, liftDet toTensor]

/-- `train_dataset` (cell 7): `image_transform` and `mask_transform` are
passed; `data_augmentation` is not. -/
def train_datasetT (Rng : Type) {Img : Type}
    (resize256 toTensor normalizeT : Img → Img)
    (trainRows : List (List String)) : FloodDataset Img Rng :=
  { img_labels := trainRows,
    img_dir :=
      "/content/drive/MyDrive/DLCV Project/Flood-Detection-Project/Image/Train-images",
    mask_dir :=
      "/content/drive/MyDrive/DLCV Project/Flood-Detection-Project/Mask/Train-Masks",
    image_transform := some (image_transformT resize256 toTensor normalizeT),
    mask_transform := some (mask_transformT resize256 toTensor) }

/-- `test_dataset` (cell 7): same transforms, test directories. -/
def test_datasetT (Rng : Type) {Img : Type}
    (resize256 toTensor normalizeT : Img → Img)
    (testRows : List (List String)) : FloodDataset Img Rng :=
  { img_labels := testRows,
    img_dir :=
      "/content/drive/MyDrive/DLCV Project/Flood-Detection-Project/Image/Test-images",
    mask_dir :=
      "/content/drive/MyDrive/DLCV Project/Flood-Detection-Project/Mask/Test-Masks",
    image_transform := some (image_transformT resize256 toTensor normalizeT),
    mask_transform := some (mask_transformT resize256 toTensor) }

/-- C10: both datasets carry exactly the deterministic
resize/ToTensor/normalize transforms (not `data_augmentation`), those
transforms are independent of the random state, and hence two
`__getitem__` calls at the same index under unchanged files return equal
pairs. -/
theorem C10_no_random_augmentation {Rng Img : Type}
    (resize256 toTensor normalizeT : Img → Img)
    (trainRows testRows : List (List String))
    (openImage : String → Img) (convertRGB convertL : Img → Img) :
    (train_datasetT Rng resize256 toTensor normalizeT
        trainRows).image_transform =
      some (image_transformT resize256 toTensor normalizeT) ∧
    (train_datasetT Rng resize256 toTensor normalizeT
        trainRows).mask_transform =
      some (mask_transformT resize256 toTensor) ∧
    (test_datasetT Rng resize256 toTensor normalizeT
        testRows).image_transform =
      some (image_transformT resize256 toTensor normalizeT) ∧
    (test_datasetT Rng resize256 toTensor normalizeT
        testRows).mask_transform =
      some (mask_transformT resize256 toTensor) ∧
    (∀ (rng rng' : Rng) (img : Img),
      image_transformT resize256 toTensor normalizeT rng img =
        image_transformT resize256 toTensor normalizeT rng' img) ∧
    (∀ (rng rng' : Rng) (img : Img),
      mask_transformT resize256 toTensor rng img =
        mask_transformT resize256 toTensor rng' img) ∧
    (∀ (rng rng' : Rng) (idx : ℕ),
      (train_datasetT Rng resize256 toTensor normalizeT trainRows).getItem
          openImage convertRGB convertL rng idx =
        (train_datasetT Rng resize256 toTensor normalizeT trainRows).getItem
          openImage convertRGB convertL rng' idx) ∧
    (∀ (rng rng' : Rng) (idx : ℕ),
      (test_datasetT Rng resize256 toTensor normalizeT testRows).getItem
          openImage convertRGB convertL rng idx =
        (test_datasetT Rng resize256 toTensor normalizeT testRows).getItem
          openImage convertRGB convertL rng' idx) := by
  refine ⟨rfl, rfl, rfl, rfl, fun _ _ _ => rfl, fun _ _ _ => rfl, ?_, ?_⟩
  · intro rng rng' idx
    unfold FloodDataset.getItem
    cases (train_datasetT Rng resize256 toTensor normalizeT
        trainRows).img_labels.get? idx with
    | none => rfl
    | some row =>
        cases row.get? 0 with
        | none => rfl
        | some f0 =>
            cases row.get? 1 with
            | none => rfl
            | some f1 => rfl
  · intro rng rng' idx
    unfold FloodDataset.getItem
    cases (test_datasetT Rng resize256 toTensor normalizeT
        testRows).img_labels.get? idx with
    | none => rfl
    | some row =>
        cases row.get? 0 with
        | none => rfl
        | some f0 =>
            cases row.get? 1 with
            | none => rfl
            | some f1 => rfl

/-! ### The training loop (cell 9)

The loop's framework operations are abstracted as events on an opaque
training state (parameters, gradients, optimizer moments); `forward`,
`loss` (the `criterion` focal loss), and `backward` depend on the batch.
The loop body is exactly `zero_grad; forward; loss; backward; step`, the
per-epoch prologue is `model.train()`, and the epilogue prints the last
loss. -/

/-- The operations the training loop performs, in program order. -/
inductive TrainEvent (B : Type) where
  | set_train : TrainEvent B
  | zero_grad : TrainEvent B
  | forward (batch : B) : TrainEvent B
  | loss (batch : B) : TrainEvent B
  | backward (batch : B) : TrainEvent B
  | opt_step : TrainEvent B
  | print_loss : TrainEvent B

/-- One epoch: `model.train()`, then for every batch in loader order the
five fixed steps, then the `print`. -/
def epochOps {B : Type} (batches : List B) : List (TrainEvent B) :=
  TrainEvent.set_train ::
    (batches.flatMap fun b =>
      [TrainEvent.zero_grad, TrainEvent.forward b, TrainEvent.loss b,
        TrainEvent.backward b, TrainEvent.opt_step]) ++ [TrainEvent.print_loss]

/-- `num_epochs = 10`. -/
def num_epochs : ℕ := 10

/-- The whole training loop: `num_epochs` sequential epochs. -/
def trainOps {B : Type} (batches : List B) : List (TrainEvent B) :=
  (List.range num_epochs).flatMap fun _ => epochOps batches

/-- Run a list of operations left to right over a training state. -/
def runOps {S B : Type} (interp : TrainEvent B → S → S)
    (ops : List (TrainEvent B)) (s : S) : S :=
  ops.foldl (fun st e => interp e st) s

theorem runOps_append {S B : Type} (interp : TrainEvent B → S → S)
    (l1 l2 : List (TrainEvent B)) (s : S) :
    runOps interp (l1 ++ l2) s = runOps interp l2 (runOps interp l1 s) :=
  List.foldl_append _ _ l1 l2

theorem runOps_flatMap {S B C : Type} (interp : TrainEvent B → S → S)
    (l : List C) (f : C → List (TrainEvent B)) (s : S) :
    runOps interp (l.flatMap f) s =
      l.foldl (fun st c => runOps interp (f c) st) s := by
  induction l generalizing s with
  | nil => rfl
  | cons c cs ih =>
      show runOps interp (f c ++ cs.flatMap f) s = _
      rw [runOps_append, ih]
      rfl

theorem foldl_const_iterate {S : Type} (f : S → S) (n : ℕ) (s : S) :
    (List.range n).foldl (fun st _ => f st) s = f^[n] s := by
  induction n with
  | zero => rfl
  | succ n ih =>
      rw [List.range_succ, List.foldl_append, List.foldl_cons, List.foldl_nil,
        ih, Function.iterate_succ_apply']

/-- C8: the training loop is `num_epochs = 10` sequential epochs; each
epoch sets train mode and then, for every batch in order, performs
exactly `zero_grad`, forward, loss, backward, `optimizer.step` — so the
whole loop is the 10-fold iterate of the epoch function. -/
theorem C8_training_loop {S B : Type} (interp : TrainEvent B → S → S)
    (batches : List B) (s0 : S) :
    runOps interp (trainOps batches) s0 =
      (fun s => interp TrainEvent.print_loss
        (batches.foldl
          (fun st b =>
            interp TrainEvent.opt_step
              (interp (TrainEvent.backward b)
                (interp (TrainEvent.loss b)
                  (interp (TrainEvent.forward b)
                    (interp TrainEvent.zero_grad st)))))
          (interp TrainEvent.set_train s)))^[num_epochs] s0 ∧
    num_epochs = 10 := by
  refine ⟨?_, rfl⟩
  unfold trainOps
  rw [runOps_flatMap]
  rw [foldl_const_iterate (fun s => runOps interp (epochOps batches) s)
    num_epochs s0]
  have hepoch : (fun s => runOps interp (epochOps batches) s) =
      fun s => interp TrainEvent.print_loss
        (batches.foldl
          (fun st b =>
            interp TrainEvent.opt_step
              (interp (TrainEvent.backward b)
                (interp (TrainEvent.loss b)
                  (interp (TrainEvent.forward b)
                    (interp TrainEvent.zero_grad st)))))
          (interp TrainEvent.set_train s)) := by
    funext s
    show runOps interp
      (TrainEvent.set_train ::
        ((batches.flatMap fun b =>
          [TrainEvent.zero_grad, TrainEvent.forward b, TrainEvent.loss b,
            TrainEvent.backward b, TrainEvent.opt_step]) ++
          [TrainEvent.print_loss])) s = _
    rw [show runOps interp
        (TrainEvent.set_train ::
          ((batches.flatMap fun b =>
            [TrainEvent.zero_grad, TrainEvent.forward b, TrainEvent.loss b,
              TrainEvent.backward b, TrainEvent.opt_step]) ++
            [TrainEvent.print_loss])) s =
        runOps interp
          ((batches.flatMap fun b =>
            [TrainEvent.zero_grad, TrainEvent.forward b, TrainEvent.loss b,
              TrainEvent.backward b, TrainEvent.opt_step]) ++
            [TrainEvent.print_loss]) (interp TrainEvent.set_train s) from rfl]
    rw [runOps_append, runOps_flatMap]
    rfl
  rw [hepoch]
